import Mathlib

/-!
Verification development for the heartandsole / fitanalysis activity pipeline.

Shallow embedding of:
  * `fitanalysis/activity.py` — `Activity.__init__` (event merging, the
    segmentation state machine, table building and column hygiene),
    `Activity._detect_start_stop_events` (the threshold detector),
    the derived-metric accessors (`moving_time`, `power`, `run_power`,
    `mean_power`, `norm_power`, `intensity`, `training_stress`) and the
    running-cost model `Activity._c_r`.
  * `heartandsole/stressutils.py` — `lactate_norm`, `training_stress`.
  * `heartandsole/core/activity.py` — the timestamp-integrity check in
    `Activity.from_fit`.

Timestamps are modelled as integers (seconds), numeric sample fields as
rationals (`ℚ`), and the floating-point metric formulas over `ℝ`.
Missing values (pandas `NaN` / `None`) are modelled with `Option`.
-/

/-- One device sample (a `record` message): a required timestamp plus the
optional fields extracted by `Activity.__init__` (`fitanalysis/activity.py`,
`fields` list at lines 65-66). -/
structure Rec where
  timestamp : Int
  speed : Option ℚ
  heart_rate : Option ℚ
  power : Option ℚ
  cadence : Option ℚ
  enhanced_altitude : Option ℚ
  distance : Option ℚ
deriving DecidableEq

/-- One row of the (timestamp-indexed) timer-event frame, restricted to the
two columns the segmentation engine reads: `event_type` and `timer_trigger`
(`fitanalysis/activity.py` lines 109-110).  `event_type` is modelled as
present (the engine calls `.startswith` on it); `timer_trigger` may be
missing in a device event, hence `Option`. -/
structure EventRow where
  event_type : String
  timer_trigger : Option String
deriving DecidableEq

/-- The detector's synthetic start row: `['start', 'detected']`. -/
def startDetected : EventRow := ⟨"start", some "detected"⟩

/-- The detector's synthetic stop row: `['stop', 'detected']`. -/
def stopDetected : EventRow := ⟨"stop", some "detected"⟩

/-- `Activity._detect_start_stop_events`, the loop over `records[1:]`
(lines 254-266 of `fitanalysis/activity.py`): `stopped` is the detector
state; a record with no speed leaves state and output unchanged; a record
at or below threshold emits a stop iff the state was not already stopped;
a record above threshold emits a start iff the state was stopped. -/
def detectAux (θ : ℚ) : Bool → List Rec → List (Int × EventRow)
  | _, [] => []
  | stopped, r :: rest =>
    match r.speed with
    | none => detectAux θ stopped rest
    | some v =>
      if v ≤ θ then
        (if stopped then [] else [(r.timestamp, stopDetected)]) ++ detectAux θ true rest
      else
        (if stopped then [(r.timestamp, startDetected)] else []) ++ detectAux θ false rest

/-- `Activity._detect_start_stop_events`: the first record always yields a
synthetic start at its timestamp (the `i == 0` branch, which neither
inspects the speed nor updates `stopped`); the rest are processed by
`detectAux` with `stopped = False`. -/
def detect_start_stop_events (θ : ℚ) : List Rec → List (Int × EventRow)
  | [] => []
  | r :: rest => (r.timestamp, startDetected) :: detectAux θ false rest

/-- Cell-wise combination of two event rows sharing a timestamp, as
`pandas.DataFrame.combine_first` does: each cell takes the left (device)
value when present, otherwise the right (detected) value.  `event_type`
is modelled as always present, so the left value always wins there. -/
def rowCombine (a b : EventRow) : EventRow :=
  ⟨a.event_type, if a.timer_trigger.isSome then a.timer_trigger else b.timer_trigger⟩

/-- `timer_events.combine_first(detected_events)` (line 89 of
`fitanalysis/activity.py`) on timestamp-indexed frames with sorted,
duplicate-free indices: a sorted merge keyed by timestamp; a key present
in both frames yields one row combined cell-wise with the left (device)
frame preferred. -/
def combine_first : List (Int × EventRow) → List (Int × EventRow) → List (Int × EventRow)
  | [], ys => ys
  | x :: xs, [] => x :: xs
  | (tx, rx) :: xs, (ty, ry) :: ys =>
    if tx < ty then (tx, rx) :: combine_first xs ((ty, ry) :: ys)
    else if ty < tx then (ty, ry) :: combine_first ((tx, rx) :: xs) ys
    else (tx, rowCombine rx ry) :: combine_first xs ys
termination_by xs ys => xs.length + ys.length

/-- The segmentation engine's scratch state: `curr_block` (line 74) and
`excise` (line 92) of `fitanalysis/activity.py`. -/
structure SegState where
  curr_block : Int
  excise : Bool
deriving DecidableEq

/-- Character-list comparison: `leads p s` holds when `p` is an initial
run of `s`. -/
def leads : List Char → List Char → Bool
  | [], _ => true
  | _ :: _, [] => false
  | a :: ps, b :: ss => a == b && leads ps ss

/-- Python's `str.startswith`, as a character-list test (`p` is an initial
segment of `s`). -/
def strStartsWith (s p : String) : Bool := leads p.data s.data

/-- Processing of one timer event (lines 109-124 of
`fitanalysis/activity.py`): a `start` increments `curr_block` and clears
`excise` regardless of trigger; an event type beginning with `stop` sets
`excise` only when its trigger is `detected`; any other type is a no-op. -/
def processEvent (s : SegState) (e : EventRow) : SegState :=
  if e.event_type = "start" then
    ⟨s.curr_block + 1, false⟩
  else if strStartsWith e.event_type "stop" then
    (if e.timer_trigger = some "detected" then ⟨s.curr_block, true⟩ else s)
  else s

/-- The event-draining loop for one record (lines 102-133 of
`fitanalysis/activity.py`): process events from the cursor while their
timestamp is at or before the record's timestamp, returning the remaining
events and the updated state. -/
def drainEvents (ts : Int) : List (Int × EventRow) → SegState → List (Int × EventRow) × SegState
  | [], s => ([], s)
  | (t, e) :: rest, s =>
    if t ≤ ts then drainEvents ts rest (processEvent s e) else ((t, e) :: rest, s)

/-- One row of the canonical table: the `(block, offset)` index, the sample's
fields, and the excise flag at emission time (materialized as a column only
in debug mode, but carried here unconditionally). -/
structure SegRow where
  block : Int
  offset : Int
  sample : Rec
  excise : Bool
deriving DecidableEq

/-- The per-sample emission of the segmentation engine with no retention
filtering: every sample is annotated with `(curr_block, excise)` after the
event drain, and with `offset = timestamp - startTime` (line 137). -/
def annotateRows (startTime : Int) : List Rec → List (Int × EventRow) → SegState → List SegRow
  | [], _, _ => []
  | r :: rs, evs, s =>
    (fun res => ⟨res.2.curr_block, r.timestamp - startTime, r, res.2.excise⟩ ::
      annotateRows startTime rs res.1 res.2) (drainEvents r.timestamp evs s)

/-- The segmentation engine's row building (lines 95-152 of
`fitanalysis/activity.py`): a sample is kept iff `not excise or
DEBUG_EXCISE` at emission time (`debug` models the `DEBUG_EXCISE` flag). -/
def segmentRows (debug : Bool) (startTime : Int) :
    List Rec → List (Int × EventRow) → SegState → List SegRow
  | [], _, _ => []
  | r :: rs, evs, s =>
    (fun res =>
      (fun rest =>
        if !res.2.excise || debug then
          ⟨res.2.curr_block, r.timestamp - startTime, r, res.2.excise⟩ :: rest
        else rest) (segmentRows debug startTime rs res.1 res.2)) (drainEvents r.timestamp evs s)

/-- A column is kept iff some retained sample has a non-null value for it
(lines 164-168 of `fitanalysis/activity.py` drop a column when the frame
restricted to its non-null values is empty). -/
def hasPowerT (t : List SegRow) : Bool := t.any (fun r => r.sample.power.isSome)

/-- Presence of the `cadence` column (see `hasPowerT`). -/
def hasCadenceT (t : List SegRow) : Bool := t.any (fun r => r.sample.cadence.isSome)

/-- Presence of the `speed` column (see `hasPowerT`). -/
def hasSpeedT (t : List SegRow) : Bool := t.any (fun r => r.sample.speed.isSome)

/-- Presence of the `enhanced_altitude` column (see `hasPowerT`). -/
def hasElevationT (t : List SegRow) : Bool := t.any (fun r => r.sample.enhanced_altitude.isSome)

/-- Presence of the `distance` column (see `hasPowerT`). -/
def hasDistanceT (t : List SegRow) : Bool := t.any (fun r => r.sample.distance.isSome)

/-- `Activity._clean_up_power_and_cadence` applied to one row, with the
code's three sequential in-place rules (lines 271-285): null cadence with
zero power becomes zero; null power with (possibly just-assigned) zero
cadence becomes zero; rows still null in both become zero in both. -/
def rowCleanupPC (r : Rec) : Rec :=
  (fun c1 =>
    (fun p1 =>
      (fun bothNull =>
        { r with cadence := if bothNull then some 0 else c1,
                 power := if bothNull then some 0 else p1 })
        (p1.isNone && c1.isNone))
      (if r.power = none ∧ c1 = some 0 then some (0 : ℚ) else r.power))
    (if r.cadence = none ∧ r.power = some 0 then some (0 : ℚ) else r.cadence)

/-- Cadence-only null filling (line 173): null cadence becomes zero. -/
def rowCadenceFill (r : Rec) : Rec :=
  { r with cadence := some (r.cadence.getD 0) }

/-- The speed hygiene of lines 175-180: divide by 1000 (mm/s to m/s), then
fill nulls with zero. -/
def rowSpeedHygiene (r : Rec) : Rec :=
  { r with speed := match r.speed with
    | some v => some (v / 1000)
    | none => some 0 }

/-- First non-null value of a column suffix (used by backward fill). -/
def firstSome : List (Option ℚ) → Option ℚ
  | [] => none
  | x :: xs => if x.isSome then x else firstSome xs

/-- `fillna(method='bfill')`: each null is replaced by the first non-null
value that follows it; trailing nulls remain null. -/
def bfill : List (Option ℚ) → List (Option ℚ)
  | [] => []
  | x :: xs => (if x.isSome then x else firstSome xs) :: bfill xs

/-- Writes a list of elevation values back into the table rows. -/
def setElevations : List SegRow → List (Option ℚ) → List SegRow
  | [], _ => []
  | _, [] => []
  | r :: rs, e :: es => { r with sample := { r.sample with enhanced_altitude := e } } :: setElevations rs es

/-- Writes a list of distance values back into the table rows. -/
def setDistances : List SegRow → List (Option ℚ) → List SegRow
  | [], _ => []
  | _, [] => []
  | r :: rs, d :: ds => { r with sample := { r.sample with distance := d } } :: setDistances rs ds

/-- Applies a per-sample field transformation to a table row. -/
def mapSample (f : Rec → Rec) (r : SegRow) : SegRow := { r with sample := f r.sample }

/-- The post-build column hygiene of `Activity.__init__` (lines 170-190):
power/cadence cleanup (or cadence-only fill), speed unit conversion and
null fill, and backward fills for elevation and distance, each step gated
on the presence of its columns. -/
def hygiene (t : List SegRow) : List SegRow :=
  (fun t1 =>
    (fun t2 =>
      (fun t3 =>
        if hasDistanceT t3 then setDistances t3 (bfill (t3.map (fun r => r.sample.distance))) else t3)
        (if hasElevationT t2 then
          setElevations t2 (bfill (t2.map (fun r => r.sample.enhanced_altitude))) else t2))
      (if hasSpeedT t1 then t1.map (mapSample rowSpeedHygiene) else t1))
    (if hasPowerT t && hasCadenceT t then t.map (mapSample rowCleanupPC)
     else if hasCadenceT t then t.map (mapSample rowCadenceFill) else t)

/-- `Activity.__init__` end to end: empty records abort construction (the
`records[0]` access at line 49 fails); otherwise the device timer events
are merged with the detected events when `remove_stopped_periods or
DEBUG_EXCISE` (lines 44, 84-89), the records are segmented starting from
state `(-1, False)`, and the table receives the column hygiene. -/
def buildActivity (remove_stopped_periods debug : Bool) (θ : ℚ)
    (records : List Rec) (deviceTimerEvents : List (Int × EventRow)) :
    Option (List SegRow) :=
  match records with
  | [] => none
  | r0 :: _ =>
    (fun timer_events =>
      some (hygiene (segmentRows debug r0.timestamp records timer_events ⟨-1, false⟩)))
      (if remove_stopped_periods || debug then
        combine_first deviceTimerEvents (detect_start_stop_events θ records)
      else deviceTimerEvents)

/-- Arithmetic mean of a rational series (`pandas.Series.mean`). -/
def meanQ (xs : List ℚ) : ℚ := xs.sum / xs.length

/-- Arithmetic mean of a real series (`numpy.mean`). -/
noncomputable def meanR (xs : List ℝ) : ℝ := xs.sum / xs.length

/-- Modelled from the spec: `fitanalysis.util.moving_average` (the
`fitanalysis/util.py` module is not among the sources).  Per the spec the
30-sample moving average "starts at the first sample (no warm-up skip)",
i.e. entry `i` is the mean of the window of the last `min (i+1) n` values
ending at `i`. -/
noncomputable def moving_average (n : Nat) (xs : List ℝ) : List ℝ :=
  (List.range xs.length).map (fun i => meanR ((xs.take (i + 1)).drop (i + 1 - n)))

/-- Modelled from the spec: rational-valued variant of `moving_average`,
used for the 120-sample smoothing of the running cost. -/
def moving_averageQ (n : Nat) (xs : List ℚ) : List ℚ :=
  (List.range xs.length).map (fun i => meanQ ((xs.take (i + 1)).drop (i + 1 - n)))

/-- `stressutils.lactate_norm`: `sqrt(sqrt(mean(series ** 4)))`. -/
noncomputable def lactate_norm (xs : List ℝ) : ℝ :=
  Real.sqrt (Real.sqrt (meanR (xs.map (fun x => x ^ 4))))

/-- `stressutils.training_stress`:
`100.0 * (moving_time_seconds / 3600.0) * intensity ** 2`. -/
noncomputable def training_stress (intensity moving_time_seconds : ℝ) : ℝ :=
  100 * (moving_time_seconds / 3600) * intensity ^ 2

/-- `Activity._c_r` (lines 536-574 of `fitanalysis/activity.py`): grade is
clamped to [-0.45, 0.45], the Minetti degree-5 polynomial gives the incline
cost, and the aerodynamic term is `k * eta_aero^-1 * speed^2` with
`k = 0.01`, `eta_aero = 0.5`. -/
def c_r (speed grade : ℚ) : ℚ :=
  (fun g => 155.4 * g ^ 5 - 30.4 * g ^ 4 - 43.3 * g ^ 3 + 46.3 * g ^ 2 + 19.5 * g + 3.6
    + 0.01 * (0.5 : ℚ)⁻¹ * speed ^ 2)
    (max (-0.45) (min grade 0.45))

/-- `pandas.Series.diff`: first entry null, entry `i` is `x i - x (i-1)`,
null when either operand is null. -/
def diffList : List (Option ℚ) → List (Option ℚ)
  | [] => []
  | x :: rest => none :: List.zipWith (fun b a =>
      match b, a with
      | some bb, some aa => some (bb - aa)
      | _, _ => none) rest (x :: rest)

/-- One entry of the point-to-point grade `dy/dx` (lines 463-467): null
differences and divisions by zero all end up as 0 (the code replaces
infinities by NaN and fills NaN with 0; in `ℚ` division by zero is 0). -/
def gradeEntry (dy dx : Option ℚ) : ℚ :=
  match dy, dx with
  | some a, some b => a / b
  | _, _ => 0

/-- The grade series of `Activity.run_power` (lines 462-469): elevation and
distance differences when elevation is present, otherwise zero (the code
multiplies the distance column by 0.0; a null distance would give NaN there,
a path no claim exercises). -/
def gradeList (t : List SegRow) : List ℚ :=
  if hasElevationT t then
    List.zipWith gradeEntry (diffList (t.map (fun r => r.sample.enhanced_altitude)))
      (diffList (t.map (fun r => r.sample.distance)))
  else t.map (fun _ => 0)

/-- `Activity.run_power` (lines 455-482): the 120-sample moving average of
the running cost, multiplied pointwise by speed.  Speeds are the
post-hygiene column (non-null whenever the column exists). -/
def run_power_series (t : List SegRow) : List ℚ :=
  (fun speeds =>
    List.zipWith (fun c s => c * s)
      (moving_averageQ 120 (List.zipWith c_r speeds (gradeList t))) speeds)
    (t.map (fun r => r.sample.speed.getD 0))

/-- `has_power or has_run_power`, the guard of the power-based accessors
(`has_run_power = has_speed and has_distance`, lines 306-308). -/
def powerAvailable (t : List SegRow) : Bool :=
  hasPowerT t || (hasSpeedT t && hasDistanceT t)

/-- `Activity.power` (lines 369-378): the non-null power values; with
stopped-period removal the source mask is
`self.data['power'].notnull() & self.data['speed'] > self.STOPPED_THRESHOLD`,
which parses with `&` before `>`: the bool mask is and-ed with the float
speed column (casting it to bool, i.e. nonzero), and comparing the
resulting boolean series with 0.3 leaves it unchanged — so the filter is
power non-null and speed nonzero. -/
def power_series (remove_stopped : Bool) (t : List SegRow) : List ℚ :=
  if remove_stopped then
    t.filterMap (fun r =>
      match r.sample.power, r.sample.speed with
      | some p, some s => if s = 0 then none else some p
      | _, _ => none)
  else t.filterMap (fun r => r.sample.power)

/-- `Activity.mean_power` (lines 484-492): unavailable without both power
sources; otherwise the mean of measured power, falling back to the mean of
running power. -/
def mean_power (remove_stopped : Bool) (t : List SegRow) : Option ℚ :=
  if powerAvailable t then
    (if hasPowerT t then some (meanQ (power_series remove_stopped t))
     else some (meanQ (run_power_series t)))
  else none

/-- `Activity.moving_time` (lines 287-300): per block, the sum of
inter-sample time deltas, the first sample of each block contributing 0
(blocks are contiguous runs in the table). -/
def moving_seconds : List SegRow → ℚ
  | [] => 0
  | [_] => 0
  | a :: b :: rest =>
    (if b.block = a.block then ((b.sample.timestamp - a.sample.timestamp : ℤ) : ℚ) else 0) +
      moving_seconds (b :: rest)

/-- The normalized-power value of `Activity.norm_power` (lines 527-532):
`sqrt(sqrt(mean(moving_average(p, 30) ** 4)))` where `p` is measured power
when present, else running power. -/
noncomputable def norm_power_val (remove_stopped : Bool) (t : List SegRow) : ℝ :=
  lactate_norm (moving_average 30
    ((if hasPowerT t then power_series remove_stopped t else run_power_series t).map
      (fun q => (q : ℝ))))

/-- `Activity.norm_power` (lines 495-534) with its availability guard. -/
noncomputable def norm_power (remove_stopped : Bool) (t : List SegRow) : Option ℝ :=
  if powerAvailable t then some (norm_power_val remove_stopped t) else none

/-- `Activity.intensity` (lines 609-626) for a numeric threshold power
(`_calc_power` is the identity on numbers): `norm_power / ftp` under the
availability guard. -/
noncomputable def intensity (remove_stopped : Bool) (t : List SegRow) (ftp : ℝ) : Option ℝ :=
  if powerAvailable t then some (norm_power_val remove_stopped t / ftp) else none

/-- `Activity.training_stress` (lines 628-653) for a numeric threshold
power: `moving_time * norm_power * intensity / (ftp * 3600) * 100` under
the availability guard. -/
noncomputable def training_stress_acc (remove_stopped : Bool) (t : List SegRow) (ftp : ℝ) :
    Option ℝ :=
  if powerAvailable t then
    some ((((moving_seconds t : ℚ) : ℝ) * norm_power_val remove_stopped t *
      (norm_power_val remove_stopped t / ftp)) / (ftp * 3600) * 100)
  else none

/-- A raw field value with its device unit tag, as seen by the row building
of `Activity.__init__` before any conversion. -/
structure TaggedField where
  value : ℚ
  units : String
deriving DecidableEq

/-- The per-field unit conversion at table build time (lines 143-145 of
`fitanalysis/activity.py`): a value tagged `semicircles` is scaled by
`180 / 2^31`; any other unit tag passes through unchanged.  The converted
value is stored untagged in the table. -/
def fieldToValue (f : TaggedField) : ℚ :=
  if f.units = "semicircles" then f.value * 180 / 2 ^ 31 else f.value

/-- The speed-unit normalization pass (lines 175-180): when a speed column
is present, every speed is divided by 1000 (mm/s to m/s) and nulls become
0. -/
def speedNormalize (t : List SegRow) : List SegRow :=
  if hasSpeedT t then t.map (mapSample rowSpeedHygiene) else t

/-- `pandas.Series.is_monotonic_increasing`: non-decreasing. -/
def is_monotonic_increasing : List Int → Bool
  | [] => true
  | [_] => true
  | a :: b :: rest => decide (a ≤ b) && is_monotonic_increasing (b :: rest)

/-- `series.duplicated().any()`: some timestamp occurs more than once. -/
def hasDuplicatedTs : List Int → Bool
  | [] => false
  | a :: rest => rest.contains a || hasDuplicatedTs rest

/-- The timestamp-integrity handling of `Activity.from_fit`
(`heartandsole/core/activity.py` lines 292-294): when the record timestamps
are not monotonically increasing, or contain duplicates, a `UserWarning` is
emitted ("Something funky is going on with timestamps.") and construction
proceeds with the records unmodified.  Result: (warning flag, the records
the table is built from). -/
def from_fit_records (records : List Rec) : Bool × List Rec :=
  (!is_monotonic_increasing (records.map Rec.timestamp) ||
    hasDuplicatedTs (records.map Rec.timestamp), records)

/-- Number of `start` events in an event list (each increments
`curr_block`). -/
def countStarts (l : List (Int × EventRow)) : ℤ :=
  ((l.filter (fun e => decide (e.2.event_type = "start"))).length : ℤ)

/-- The events a record with timestamp `ts` drains from the cursor: the
maximal prefix of pending events whose timestamps are at or before `ts`. -/
def consumedEvents : List Rec → List (Int × EventRow) → List (Int × EventRow)
  | [], _ => []
  | r :: rs, evs =>
    evs.takeWhile (fun e => decide (e.1 ≤ r.timestamp)) ++
      consumedEvents rs (evs.dropWhile (fun e => decide (e.1 ≤ r.timestamp)))


/-- A detected-provenance stop: the only kind of event that can set the
excising flag. -/
def isDetectedStop (e : EventRow) : Prop :=
  strStartsWith e.event_type "stop" = true ∧ e.timer_trigger = some "detected"


/-- Strict ordering of event timestamps (merge keys). -/
def keyLt (a b : Int × EventRow) : Prop := a.1 < b.1


/-- The index-and-flag data of a table row (everything except the sample
fields touched by column hygiene), plus the sample timestamp. -/
def segMeta (r : SegRow) : Int × Int × Bool × Int :=
  (r.block, r.offset, r.excise, r.sample.timestamp)


/-- A sample with no optional fields, used by concrete instances. -/
def recNull (ts : Int) : Rec := ⟨ts, none, none, none, none, none, none⟩

lemma drainEvents_eq (ts : Int) (evs : List (Int × EventRow)) : ∀ s : SegState,
    drainEvents ts evs s =
      (evs.dropWhile (fun e => decide (e.1 ≤ ts)),
        (evs.takeWhile (fun e => decide (e.1 ≤ ts))).foldl (fun a e => processEvent a e.2) s) := by
  induction evs with
  | nil => intro s; simp [drainEvents]
  | cons x rest ih =>
    intro s
    obtain ⟨t, e⟩ := x
    by_cases h : t ≤ ts
    · simp [drainEvents, h, ih]
    · simp [drainEvents, h]

lemma processEvent_block (s : SegState) (e : EventRow) :
    (processEvent s e).curr_block =
      if e.event_type = "start" then s.curr_block + 1 else s.curr_block := by
  by_cases h : e.event_type = "start"
  · simp [processEvent, h]
  · by_cases h2 : strStartsWith e.event_type "stop" = true
    · by_cases h3 : e.timer_trigger = some "detected" <;> simp [processEvent, h, h2, h3]
    · simp [processEvent, h, h2]

lemma foldl_processEvent_block (l : List (Int × EventRow)) : ∀ s : SegState,
    (l.foldl (fun a e => processEvent a e.2) s).curr_block = s.curr_block + countStarts l := by
  induction l with
  | nil => intro s; simp [countStarts]
  | cons x rest ih =>
    intro s
    by_cases h : x.2.event_type = "start"
    · simp only [List.foldl_cons, ih, countStarts, List.filter_cons, h]
      simp [processEvent_block, h]
      ring
    · simp only [List.foldl_cons, ih, countStarts, List.filter_cons, h]
      simp [processEvent_block, h]

lemma annotateRows_length (st : Int) (records : List Rec) :
    ∀ (evs : List (Int × EventRow)) (s : SegState),
    (annotateRows st records evs s).length = records.length := by
  induction records with
  | nil => intro evs s; simp [annotateRows]
  | cons r rs ih => intro evs s; simp [annotateRows, ih]

lemma segmentRows_eq_filter (debug : Bool) (st : Int) (records : List Rec) :
    ∀ (evs : List (Int × EventRow)) (s : SegState),
    segmentRows debug st records evs s =
      if debug then annotateRows st records evs s
      else (annotateRows st records evs s).filter (fun r => !r.excise) := by
  induction records with
  | nil => intro evs s; cases debug <;> simp [segmentRows, annotateRows]
  | cons r rs ih =>
    intro evs s
    cases debug
    · by_cases hx : (drainEvents r.timestamp evs s).2.excise
      · simp [segmentRows, annotateRows, ih, hx, List.filter_cons]
      · simp [segmentRows, annotateRows, ih, hx, List.filter_cons]
    · simp [segmentRows, annotateRows, ih]

lemma segmentRows_offset (debug : Bool) (st : Int) (records : List Rec) :
    ∀ (evs : List (Int × EventRow)) (s : SegState),
    ∀ row ∈ segmentRows debug st records evs s, row.offset = row.sample.timestamp - st := by
  induction records with
  | nil => intro evs s row hrow; simp [segmentRows] at hrow
  | cons r rs ih =>
    intro evs s row hrow
    simp only [segmentRows] at hrow
    by_cases hx : !(drainEvents r.timestamp evs s).2.excise || debug
    · rw [if_pos hx] at hrow
      rcases List.mem_cons.mp hrow with h | h
      · subst h; rfl
      · exact ih _ _ row h
    · rw [if_neg hx] at hrow
      exact ih _ _ row hrow

lemma mem_takeWhile_mem {α : Type} (p : α → Bool) (l : List α) (x : α)
    (h : x ∈ l.takeWhile p) : x ∈ l := by
  induction l with
  | nil => simp [List.takeWhile] at h
  | cons a rest ih =>
    by_cases hp : p a
    · rw [List.takeWhile_cons_of_pos hp] at h
      rcases List.mem_cons.mp h with h | h
      · exact h ▸ List.mem_cons_self a rest
      · exact List.mem_cons_of_mem a (ih h)
    · rw [List.takeWhile_cons_of_neg hp] at h
      simp at h

lemma mem_takeWhile_pred {α : Type} (p : α → Bool) (l : List α) (x : α)
    (h : x ∈ l.takeWhile p) : p x = true := by
  induction l with
  | nil => simp [List.takeWhile] at h
  | cons a rest ih =>
    by_cases hp : p a
    · rw [List.takeWhile_cons_of_pos hp] at h
      rcases List.mem_cons.mp h with h | h
      · exact h ▸ hp
      · exact ih h
    · rw [List.takeWhile_cons_of_neg hp] at h
      simp at h

lemma countStarts_append (a b : List (Int × EventRow)) :
    countStarts (a ++ b) = countStarts a + countStarts b := by
  simp [countStarts, List.filter_append]

lemma countStarts_nonneg (l : List (Int × EventRow)) : 0 ≤ countStarts l := by
  simp [countStarts]

lemma annotateRows_get_block (st : Int) (records : List Rec) :
    ∀ (evs : List (Int × EventRow)) (s : SegState) (i : Nat)
      (h : i < (annotateRows st records evs s).length),
    ((annotateRows st records evs s).get ⟨i, h⟩).block =
      s.curr_block + countStarts (consumedEvents (records.take (i + 1)) evs) := by
  induction records with
  | nil => intro evs s i h; simp [annotateRows] at h
  | cons r rs ih =>
    intro evs s i h
    cases i with
    | zero =>
      simp only [annotateRows, List.take_succ_cons, List.take_zero]
      simp [drainEvents_eq, foldl_processEvent_block, consumedEvents]
    | succ n =>
      simp only [annotateRows, List.take_succ_cons] at h ⊢
      rw [List.get_cons_succ]
      rw [ih _ _ n _]
      simp only [consumedEvents, countStarts_append]
      rw [drainEvents_eq]
      simp [foldl_processEvent_block]
      ring

lemma processEvent_excise_false (s : SegState) (e : EventRow)
    (hs : s.excise = false) (he : ¬ isDetectedStop e) :
    (processEvent s e).excise = false := by
  by_cases h1 : e.event_type = "start"
  · simp [processEvent, h1]
  · by_cases h2 : strStartsWith e.event_type "stop" = true
    · by_cases h3 : e.timer_trigger = some "detected"
      · exact absurd ⟨h2, h3⟩ he
      · simp [processEvent, h1, h2, h3, hs]
    · simp [processEvent, h1, h2, hs]

lemma foldl_processEvent_excise_false (l : List (Int × EventRow)) : ∀ s : SegState,
    s.excise = false → (∀ e ∈ l, ¬ isDetectedStop e.2) →
    (l.foldl (fun a e => processEvent a e.2) s).excise = false := by
  induction l with
  | nil => intro s hs _; simpa using hs
  | cons x rest ih =>
    intro s hs hl
    simp only [List.foldl_cons]
    exact ih _ (processEvent_excise_false s x.2 hs (hl x (List.mem_cons_self x rest)))
      (fun e he => hl e (List.mem_cons_of_mem x he))

lemma mem_detectAux (θ : ℚ) (l : List Rec) : ∀ (st : Bool) (e : Int × EventRow),
    e ∈ detectAux θ st l →
    (e.2 = startDetected ∨ e.2 = stopDetected) ∧ ∃ r ∈ l, e.1 = r.timestamp := by
  induction l with
  | nil => intro st e he; simp [detectAux] at he
  | cons r rest ih =>
    intro st e he
    simp only [detectAux] at he
    rcases hsp : r.speed with _ | v
    · rw [hsp] at he
      obtain ⟨hkind, rr, hrr, hts⟩ := ih st e he
      exact ⟨hkind, rr, List.mem_cons_of_mem r hrr, hts⟩
    · rw [hsp] at he
      by_cases hv : v ≤ θ
      · simp only [if_pos hv] at he
        rcases List.mem_append.mp he with h | h
        · cases st with
          | true => simp at h
          | false =>
            simp at h
            subst h
            exact ⟨Or.inr rfl, r, List.mem_cons_self r rest, rfl⟩
        · obtain ⟨hkind, rr, hrr, hts⟩ := ih true e h
          exact ⟨hkind, rr, List.mem_cons_of_mem r hrr, hts⟩
      · simp only [if_neg hv] at he
        rcases List.mem_append.mp he with h | h
        · cases st with
          | false => simp at h
          | true =>
            simp at h
            subst h
            exact ⟨Or.inl rfl, r, List.mem_cons_self r rest, rfl⟩
        · obtain ⟨hkind, rr, hrr, hts⟩ := ih false e h
          exact ⟨hkind, rr, List.mem_cons_of_mem r hrr, hts⟩

lemma mem_detect_start_stop_events (θ : ℚ) (records : List Rec) (e : Int × EventRow)
    (he : e ∈ detect_start_stop_events θ records) :
    (e.2 = startDetected ∨ e.2 = stopDetected) ∧ ∃ r ∈ records, e.1 = r.timestamp := by
  cases records with
  | nil => simp [detect_start_stop_events] at he
  | cons r rest =>
    simp only [detect_start_stop_events] at he
    rcases List.mem_cons.mp he with h | h
    · subst h
      exact ⟨Or.inl rfl, r, List.mem_cons_self r rest, rfl⟩
    · obtain ⟨hkind, rr, hrr, hts⟩ := mem_detectAux θ rest false e h
      exact ⟨hkind, rr, List.mem_cons_of_mem r hrr, hts⟩

lemma mem_combine_first : ∀ (xs ys : List (Int × EventRow)) (e : Int × EventRow),
    e ∈ combine_first xs ys →
    e ∈ xs ∨ e ∈ ys ∨
      ∃ rx ry, (e.1, rx) ∈ xs ∧ (e.1, ry) ∈ ys ∧ e = (e.1, rowCombine rx ry) := by
  intro xs ys e he
  induction xs, ys using combine_first.induct with
  | case1 ys =>
    rw [combine_first] at he
    exact Or.inr (Or.inl he)
  | case2 x xs =>
    rw [combine_first] at he
    exact Or.inl he
  | case3 tx rx xs ty ry ys hlt ih =>
    rw [combine_first, if_pos hlt] at he
    rcases List.mem_cons.mp he with h | h
    · exact Or.inl (h ▸ List.mem_cons_self _ _)
    · rcases ih h with h2 | h2 | h2
      · exact Or.inl (List.mem_cons_of_mem _ h2)
      · exact Or.inr (Or.inl h2)
      · obtain ⟨ra, rb, ha, hb, hab⟩ := h2
        exact Or.inr (Or.inr ⟨ra, rb, List.mem_cons_of_mem _ ha, hb, hab⟩)
  | case4 tx rx xs ty ry ys hlt hlt2 ih =>
    rw [combine_first, if_neg hlt, if_pos hlt2] at he
    rcases List.mem_cons.mp he with h | h
    · exact Or.inr (Or.inl (h ▸ List.mem_cons_self _ _))
    · rcases ih h with h2 | h2 | h2
      · exact Or.inl h2
      · exact Or.inr (Or.inl (List.mem_cons_of_mem _ h2))
      · obtain ⟨ra, rb, ha, hb, hab⟩ := h2
        exact Or.inr (Or.inr ⟨ra, rb, ha, List.mem_cons_of_mem _ hb, hab⟩)
  | case5 tx rx xs ty ry ys hlt hlt2 ih =>
    rw [combine_first, if_neg hlt, if_neg hlt2] at he
    have hxy : ty = tx := le_antisymm (not_lt.mp hlt) (not_lt.mp hlt2)
    rcases List.mem_cons.mp he with h | h
    · subst h
      exact Or.inr (Or.inr ⟨rx, ry, List.mem_cons_self _ _, by
        rw [hxy]; exact List.mem_cons_self _ _, rfl⟩)
    · rcases ih h with h2 | h2 | h2
      · exact Or.inl (List.mem_cons_of_mem _ h2)
      · exact Or.inr (Or.inl (List.mem_cons_of_mem _ h2))
      · obtain ⟨ra, rb, ha, hb, hab⟩ := h2
        exact Or.inr (Or.inr ⟨ra, rb, List.mem_cons_of_mem _ ha, List.mem_cons_of_mem _ hb, hab⟩)

lemma combine_first_pairwise : ∀ xs ys : List (Int × EventRow),
    List.Pairwise keyLt xs → List.Pairwise keyLt ys →
    List.Pairwise keyLt (combine_first xs ys) := by
  intro xs ys hxs hys
  induction xs, ys using combine_first.induct with
  | case1 ys => rw [combine_first]; exact hys
  | case2 x xs => rw [combine_first]; exact hxs
  | case3 tx rx xs ty ry ys hlt ih =>
    rw [combine_first, if_pos hlt]
    obtain ⟨hbx, htx⟩ := List.pairwise_cons.mp hxs
    obtain ⟨hby, hty⟩ := List.pairwise_cons.mp hys
    refine List.pairwise_cons.mpr ⟨?_, ih htx hys⟩
    intro e he
    rcases mem_combine_first _ _ _ he with h | h | h
    · exact hbx e h
    · rcases List.mem_cons.mp h with h2 | h2
      · rw [h2]; exact hlt
      · exact lt_trans hlt (hby e h2)
    · obtain ⟨ra, rb, ha, hb, hab⟩ := h
      exact hbx (e.1, ra) ha
  | case4 tx rx xs ty ry ys hlt hlt2 ih =>
    rw [combine_first, if_neg hlt, if_pos hlt2]
    obtain ⟨hbx, htx⟩ := List.pairwise_cons.mp hxs
    obtain ⟨hby, hty⟩ := List.pairwise_cons.mp hys
    refine List.pairwise_cons.mpr ⟨?_, ih hxs hty⟩
    intro e he
    rcases mem_combine_first _ _ _ he with h | h | h
    · rcases List.mem_cons.mp h with h2 | h2
      · rw [h2]; exact hlt2
      · exact lt_trans hlt2 (hbx e h2)
    · exact hby e h
    · obtain ⟨ra, rb, ha, hb, hab⟩ := h
      exact hby (e.1, rb) hb
  | case5 tx rx xs ty ry ys hlt hlt2 ih =>
    rw [combine_first, if_neg hlt, if_neg hlt2]
    have hxy : ty = tx := le_antisymm (not_lt.mp hlt) (not_lt.mp hlt2)
    obtain ⟨hbx, htx⟩ := List.pairwise_cons.mp hxs
    obtain ⟨hby, hty⟩ := List.pairwise_cons.mp hys
    refine List.pairwise_cons.mpr ⟨?_, ih htx hty⟩
    intro e he
    rcases mem_combine_first _ _ _ he with h | h | h
    · exact hbx e h
    · have := hby e h
      simp only [keyLt] at this ⊢
      omega
    · obtain ⟨ra, rb, ha, hb, hab⟩ := h
      exact hbx (e.1, ra) ha

lemma map_segMeta_mapSample (f : Rec → Rec) (hf : ∀ a : Rec, (f a).timestamp = a.timestamp) :
    ∀ t : List SegRow, (t.map (mapSample f)).map segMeta = t.map segMeta := by
  intro t
  induction t with
  | nil => rfl
  | cons r rs ih => simp [segMeta, mapSample, hf, ih]

lemma bfill_length (l : List (Option ℚ)) : (bfill l).length = l.length := by
  induction l with
  | nil => rfl
  | cons x xs ih => simp [bfill, ih]

lemma map_segMeta_setElevations : ∀ (t : List SegRow) (es : List (Option ℚ)),
    es.length = t.length → (setElevations t es).map segMeta = t.map segMeta := by
  intro t
  induction t with
  | nil => intro es h; cases es <;> simp [setElevations]
  | cons r rs ih =>
    intro es h
    cases es with
    | nil => simp at h
    | cons e es2 =>
      simp only [setElevations, List.map_cons]
      rw [ih es2 (by simpa using h)]
      simp [segMeta]

lemma map_segMeta_setDistances : ∀ (t : List SegRow) (es : List (Option ℚ)),
    es.length = t.length → (setDistances t es).map segMeta = t.map segMeta := by
  intro t
  induction t with
  | nil => intro es h; cases es <;> simp [setDistances]
  | cons r rs ih =>
    intro es h
    cases es with
    | nil => simp at h
    | cons e es2 =>
      simp only [setDistances, List.map_cons]
      rw [ih es2 (by simpa using h)]
      simp [segMeta]

lemma hygiene_meta (t : List SegRow) : (hygiene t).map segMeta = t.map segMeta := by
  have step1 : ∀ u : List SegRow,
      ((if hasPowerT u && hasCadenceT u then u.map (mapSample rowCleanupPC)
        else if hasCadenceT u then u.map (mapSample rowCadenceFill) else u)).map segMeta
        = u.map segMeta := by
    intro u
    split
    · exact map_segMeta_mapSample rowCleanupPC (fun a => rfl) u
    · split
      · exact map_segMeta_mapSample rowCadenceFill (fun a => rfl) u
      · rfl
  have step2 : ∀ u : List SegRow,
      ((if hasSpeedT u then u.map (mapSample rowSpeedHygiene) else u)).map segMeta
        = u.map segMeta := by
    intro u
    split
    · exact map_segMeta_mapSample rowSpeedHygiene (fun a => rfl) u
    · rfl
  have step3 : ∀ u : List SegRow,
      ((if hasElevationT u then
        setElevations u (bfill (u.map (fun r => r.sample.enhanced_altitude))) else u)).map segMeta
        = u.map segMeta := by
    intro u
    split
    · exact map_segMeta_setElevations u _ (by rw [bfill_length, List.length_map])
    · rfl
  have step4 : ∀ u : List SegRow,
      ((if hasDistanceT u then
        setDistances u (bfill (u.map (fun r => r.sample.distance))) else u)).map segMeta
        = u.map segMeta := by
    intro u
    split
    · exact map_segMeta_setDistances u _ (by rw [bfill_length, List.length_map])
    · rfl
  simp only [hygiene]
  rw [step4, step3, step2, step1]

/-- C1: for every sample processed by the segmentation engine, a `start`
event increments `current_block` by 1 and clears the excising flag
regardless of provenance; a `stop` event (any event type beginning with
`stop`) sets excising to true when its provenance is `detected` and leaves
the state unchanged otherwise; and a sample is retained in the canonical
table iff excising is false at emission time — or always in debug mode,
with the excise value recorded on the row. -/
theorem C1_segmentation_transitions :
    (∀ (s : SegState) (tr : Option String),
      processEvent s ⟨"start", tr⟩ = ⟨s.curr_block + 1, false⟩) ∧
    (∀ (s : SegState) (et : String) (tr : Option String), strStartsWith et "stop" = true →
      processEvent s ⟨et, tr⟩ =
        (if tr = some "detected" then ⟨s.curr_block, true⟩ else s)) ∧
    (∀ (debug : Bool) (st : Int) (records : List Rec) (evs : List (Int × EventRow))
        (s : SegState),
      segmentRows debug st records evs s =
        if debug then annotateRows st records evs s
        else (annotateRows st records evs s).filter (fun r => !r.excise)) := by
  refine ⟨?_, ?_, segmentRows_eq_filter⟩
  · intro s tr
    simp [processEvent]
  · intro s et tr h
    have hne : et ≠ "start" := by
      intro hh
      rw [hh] at h
      exact absurd h (by decide)
    simp [processEvent, hne, h]

/-- Witness for C1 at concrete inputs: a detected stop sets excising, a
device (`manual`) stop of a `stop_all` sub-kind leaves the state
unchanged. -/
theorem C1_segmentation_transitions_witness :
    processEvent ⟨-1, false⟩ ⟨"stop", some "detected"⟩ = ⟨-1, true⟩ ∧
    processEvent ⟨5, true⟩ ⟨"stop_all", some "manual"⟩ = ⟨5, true⟩ := by
  constructor
  · have h := C1_segmentation_transitions.2.1 ⟨-1, false⟩ "stop" (some "detected") (by decide)
    simpa using h
  · have h := C1_segmentation_transitions.2.1 ⟨5, true⟩ "stop_all" (some "manual") (by decide)
    simpa using h

/-- C2 (amended): no sample is ever assigned a block index below −1, and
every emitted sample's block index equals −1 plus the number of `start`
events drained before its emission — so samples preceding the first
processed start carry block −1.  Such samples are retained or dropped by
the same excising rule as every other sample, not unconditionally
dropped. -/
theorem C2_block_bounds :
    (∀ (st : Int) (records : List Rec) (evs : List (Int × EventRow)) (ex : Bool)
        (row : SegRow), row ∈ annotateRows st records evs ⟨-1, ex⟩ → -1 ≤ row.block) ∧
    (∀ (st : Int) (records : List Rec) (evs : List (Int × EventRow)) (s : SegState)
        (i : Nat) (h : i < (annotateRows st records evs s).length),
      ((annotateRows st records evs s).get ⟨i, h⟩).block =
        s.curr_block + countStarts (consumedEvents (records.take (i + 1)) evs)) := by
  refine ⟨?_, annotateRows_get_block⟩
  intro st records evs ex row hrow
  obtain ⟨⟨i, hi⟩, hget⟩ := List.mem_iff_get.mp hrow
  rw [← hget, annotateRows_get_block]
  have hc := countStarts_nonneg (consumedEvents (records.take (i + 1)) evs)
  have h2 : (⟨-1, ex⟩ : SegState).curr_block = -1 := rfl
  rw [h2]
  omega

/-- Witness for C2 at a concrete input: one sample, one device start event
at its timestamp; the emitted block index is −1 plus one processed start. -/
theorem C2_block_bounds_witness :
    (-1 : Int) ≤ (⟨0, 0, recNull 0, false⟩ : SegRow).block ∧
    ((annotateRows 0 [recNull 0] [(0, ⟨"start", none⟩)] ⟨-1, false⟩).get ⟨0, by decide⟩).block =
      (⟨-1, false⟩ : SegState).curr_block +
        countStarts (consumedEvents ([recNull 0].take 1) [(0, ⟨"start", none⟩)]) := by
  constructor
  · exact C2_block_bounds.1 0 [recNull 0] [(0, ⟨"start", none⟩)] false ⟨0, 0, recNull 0, false⟩
      (by decide)
  · exact C2_block_bounds.2 0 [recNull 0] [(0, ⟨"start", none⟩)] ⟨-1, false⟩ 0 (by decide)

/-- C2 counterexample: with stopped-period removal disabled and no device
events, the single sample is assigned block −1 and nevertheless retained in
the canonical table — refuting "samples preceding the first start are never
retained". -/
theorem C2_counterexample :
    buildActivity false false 3 [recNull 0] [] = some [⟨-1, 0, recNull 0, false⟩] := by
  decide

/-- C3 (amended): the merged timeline keeps strictly increasing, hence
distinct, timestamps; on a shared timestamp the merged row takes each cell
from the device event where present, falling back to the detected event's
cell (`combine_first` is cell-wise); when the device event's trigger field
is present the merged row is exactly the device event and the state
transition matches processing the device stream alone. -/
theorem C3_device_precedence :
    (∀ xs ys : List (Int × EventRow), List.Pairwise keyLt xs → List.Pairwise keyLt ys →
      List.Pairwise keyLt (combine_first xs ys)) ∧
    (∀ (rx ry : EventRow) (tr : String), rx.timer_trigger = some tr → rowCombine rx ry = rx) ∧
    (∀ (s : SegState) (rx ry : EventRow) (tr : String), rx.timer_trigger = some tr →
      processEvent s (rowCombine rx ry) = processEvent s rx) ∧
    (∀ (tx : Int) (rx : EventRow) (xs : List (Int × EventRow)) (ry : EventRow)
        (ys : List (Int × EventRow)),
      combine_first ((tx, rx) :: xs) ((tx, ry) :: ys) =
        (tx, rowCombine rx ry) :: combine_first xs ys) := by
  refine ⟨combine_first_pairwise, ?_, ?_, ?_⟩
  · intro rx ry tr h
    simp only [rowCombine, h, Option.isSome_some, if_true]
    rw [← h]
  · intro s rx ry tr h
    have h2 : rowCombine rx ry = rx := by
      simp only [rowCombine, h, Option.isSome_some, if_true]
      rw [← h]
    rw [h2]
  · intro tx rx xs ry ys
    simp [combine_first]

/-- Witness for C3 at concrete inputs: merging a device stop (trigger
present) with detected events keeps sorted distinct keys, and the device
row survives the cell-wise combination unchanged. -/
theorem C3_device_precedence_witness :
    List.Pairwise keyLt
      (combine_first [(0, (⟨"stop", some "manual"⟩ : EventRow))]
        [(0, startDetected), (5, stopDetected)]) ∧
    rowCombine ⟨"stop", some "manual"⟩ startDetected = ⟨"stop", some "manual"⟩ := by
  constructor
  · exact C3_device_precedence.1 _ _ (by simp [keyLt]) (by simp [keyLt])
  · exact C3_device_precedence.2.1 _ startDetected "manual" rfl

/-- C3 counterexample: a device stop whose trigger field is missing, merged
with the detected start at the same timestamp, produces a hybrid row — the
device's event type with the detected event's trigger — not the device
event; and the segmentation transition on that hybrid (it excises) differs
from processing the device event alone (which does not). -/
theorem C3_counterexample :
    combine_first [(0, (⟨"stop", none⟩ : EventRow))] [(0, startDetected)] ≠
      [(0, (⟨"stop", none⟩ : EventRow))] ∧
    processEvent ⟨0, false⟩ ⟨"stop", some "detected"⟩ ≠ processEvent ⟨0, false⟩ ⟨"stop", none⟩ := by
  constructor
  · have h : combine_first [(0, (⟨"stop", none⟩ : EventRow))] [(0, startDetected)] =
        [(0, ⟨"stop", some "detected"⟩)] := by
      simp [combine_first, rowCombine, startDetected]
    rw [h]
    decide
  · decide

/-- C4: the threshold detector always bootstraps with a synthetic start at
the first sample's timestamp regardless of speed; while considered moving,
the first sample at or below threshold yields a stop at its timestamp;
while considered stopped, the first sample above threshold yields a start
at its timestamp; a sample with no speed value emits nothing and keeps the
detector state; and every emitted event has provenance `detected` and the
timestamp of some sample. -/
theorem C4_threshold_detector :
    (∀ (θ : ℚ) (r : Rec) (rest : List Rec),
      detect_start_stop_events θ (r :: rest) =
        (r.timestamp, startDetected) :: detectAux θ false rest) ∧
    (∀ (θ : ℚ) (rest : List Rec) (r : Rec) (v : ℚ), r.speed = some v → v ≤ θ →
      detectAux θ false (r :: rest) = (r.timestamp, stopDetected) :: detectAux θ true rest) ∧
    (∀ (θ : ℚ) (rest : List Rec) (r : Rec) (v : ℚ), r.speed = some v → θ < v →
      detectAux θ true (r :: rest) = (r.timestamp, startDetected) :: detectAux θ false rest) ∧
    (∀ (θ : ℚ) (rest : List Rec) (r : Rec) (st : Bool), r.speed = none →
      detectAux θ st (r :: rest) = detectAux θ st rest) ∧
    (∀ (θ : ℚ) (records : List Rec) (e : Int × EventRow),
      e ∈ detect_start_stop_events θ records →
        e.2.timer_trigger = some "detected" ∧ ∃ r ∈ records, e.1 = r.timestamp) := by
  refine ⟨fun θ r rest => rfl, ?_, ?_, ?_, ?_⟩
  · intro θ rest r v hsp hv
    simp [detectAux, hsp, hv]
  · intro θ rest r v hsp hv
    simp [detectAux, hsp, not_le.mpr hv]
  · intro θ rest r st hsp
    simp [detectAux, hsp]
  · intro θ records e he
    obtain ⟨hkind, hts⟩ := mem_detect_start_stop_events θ records e he
    refine ⟨?_, hts⟩
    rcases hkind with h | h <;> rw [h] <;> rfl

/-- Witness for C4 at concrete inputs (threshold 3): a bootstrap start, a
stop on dropping to speed 1, a start on rising to speed 5, and no event for
a speed-less sample. -/
theorem C4_threshold_detector_witness :
    detect_start_stop_events 3 [⟨0, some 5, none, none, none, none, none⟩] =
      [(0, startDetected)] ∧
    detectAux 3 false [⟨7, some 1, none, none, none, none, none⟩] = [(7, stopDetected)] ∧
    detectAux 3 true [⟨9, some 5, none, none, none, none, none⟩] = [(9, startDetected)] ∧
    detectAux 3 false [recNull 4] = [] := by
  refine ⟨?_, ?_, ?_, ?_⟩
  · rw [C4_threshold_detector.1 3 _ []]
    simp [detectAux]
  · rw [C4_threshold_detector.2.1 3 [] _ 1 rfl (by decide)]
    simp [detectAux]
  · rw [C4_threshold_detector.2.2.1 3 [] _ 5 rfl (by decide)]
    simp [detectAux]
  · rw [C4_threshold_detector.2.2.2.1 3 [] _ false rfl]
    simp [detectAux]

/-- C5 (amended): an empty sample stream aborts construction (no canonical
table, the `records[0]` access fails); an empty device event stream does
not abort — construction proceeds and produces a table. -/
theorem C5_empty_input :
    (∀ (rm dbg : Bool) (θ : ℚ) (evs : List (Int × EventRow)),
      buildActivity rm dbg θ [] evs = none) ∧
    (∀ (rm dbg : Bool) (θ : ℚ) (r : Rec) (rs : List Rec),
      (buildActivity rm dbg θ (r :: rs) []).isSome = true) := by
  constructor
  · intro rm dbg θ evs
    rfl
  · intro rm dbg θ r rs
    simp [buildActivity]

/-- C5 counterexample: constructing from one sample and zero events
succeeds (a canonical table is produced), refuting "zero events is a fatal
Empty-Input error". -/
theorem C5_counterexample :
    buildActivity true false 3 [recNull 0] [] ≠ none := by
  simp [buildActivity]

/-- C6 (amended): non-monotonic or duplicated record timestamps make
`from_fit` emit a warning while construction proceeds and the table is
built from the unrepaired records. -/
theorem C6_timestamp_warning (records : List Rec)
    (h : is_monotonic_increasing (records.map Rec.timestamp) = false ∨
      hasDuplicatedTs (records.map Rec.timestamp) = true) :
    from_fit_records records = (true, records) := by
  rcases h with h | h <;> simp [from_fit_records, h]

/-- Witness for C6 at a concrete input: duplicated timestamps warn and the
records pass through unrepaired. -/
theorem C6_timestamp_warning_witness :
    from_fit_records [recNull 4, recNull 4] = (true, [recNull 4, recNull 4]) :=
  C6_timestamp_warning [recNull 4, recNull 4] (Or.inr (by decide))

/-- C6 counterexample: on non-monotonic timestamps the builder produces the
table (warning flag set, records unmodified) instead of raising and
aborting. -/
theorem C6_counterexample :
    from_fit_records [recNull 5, recNull 3] = (true, [recNull 5, recNull 3]) := by
  decide

/-- C7: on an activity whose table lacks a measured power column and the
columns (speed, distance) needed for running power, the accessors
`mean_power`, `norm_power`, `intensity` and `training_stress` all return
the unavailable sentinel `none` (their guards fire before any computation,
so nothing is raised), for any threshold argument. -/
theorem C7_unavailable (rm : Bool) (t : List SegRow) (ftp : ℝ)
    (h : powerAvailable t = false) :
    mean_power rm t = none ∧ norm_power rm t = none ∧ intensity rm t ftp = none ∧
      training_stress_acc rm t ftp = none := by
  simp [mean_power, norm_power, intensity, training_stress_acc, h]

/-- Witness for C7 at a concrete input: a one-row table carrying only heart
rate; all four accessors are unavailable. -/
theorem C7_unavailable_witness :
    mean_power true [⟨0, 0, ⟨0, none, some 150, none, none, none, none⟩, false⟩] = none ∧
    norm_power true [⟨0, 0, ⟨0, none, some 150, none, none, none, none⟩, false⟩] = none ∧
    intensity true [⟨0, 0, ⟨0, none, some 150, none, none, none, none⟩, false⟩] 1 = none ∧
    training_stress_acc true [⟨0, 0, ⟨0, none, some 150, none, none, none, none⟩, false⟩] 1 =
      none :=
  C7_unavailable true [⟨0, 0, ⟨0, none, some 150, none, none, none, none⟩, false⟩] 1 (by decide)

/-- C8: with an available power series and a nonzero numeric threshold
power, the accessor's training stress equals
`100 * (moving_seconds / 3600) * intensity^2` (the `stressutils` formula)
with `intensity = normalized_power / threshold_power`, where normalized
power is `sqrt(sqrt(mean(moving_average(power, 30) ** 4)))` and the
30-sample moving average starts at the first sample (its first entry is the
first power value, no warm-up skip). -/
theorem C8_training_stress_formula (rm : Bool) (t : List SegRow) (ftp : ℝ)
    (hav : powerAvailable t = true) (hftp : ftp ≠ 0) :
    training_stress_acc rm t ftp =
      some (training_stress (norm_power_val rm t / ftp) ((moving_seconds t : ℚ) : ℝ)) ∧
    intensity rm t ftp = some (norm_power_val rm t / ftp) ∧
    norm_power_val rm t =
      Real.sqrt (Real.sqrt (meanR ((moving_average 30
        ((if hasPowerT t then power_series rm t else run_power_series t).map
          (fun q => (q : ℝ)))).map (fun x => x ^ 4)))) ∧
    (∀ (x : ℝ) (xs : List ℝ), (moving_average 30 (x :: xs)).head? = some x) := by
  refine ⟨?_, ?_, rfl, ?_⟩
  · simp only [training_stress_acc, hav, if_true, training_stress]
    congr 1
    field_simp
    ring
  · simp [intensity, hav]
  · intro x xs
    simp [moving_average, List.range_succ_eq_map, meanR]

/-- Witness for C8 at a concrete input: a one-row table with power 1 and
threshold power 1. -/
theorem C8_training_stress_formula_witness :
    powerAvailable [⟨0, 0, ⟨0, none, none, some 1, none, none, none⟩, false⟩] = true ∧
    training_stress_acc false [⟨0, 0, ⟨0, none, none, some 1, none, none, none⟩, false⟩] 1 =
      some (training_stress
        (norm_power_val false [⟨0, 0, ⟨0, none, none, some 1, none, none, none⟩, false⟩] / 1)
        ((moving_seconds [⟨0, 0, ⟨0, none, none, some 1, none, none, none⟩, false⟩] : ℚ) : ℝ)) :=
  ⟨by decide,
    (C8_training_stress_formula false [⟨0, 0, ⟨0, none, none, some 1, none, none, none⟩, false⟩]
      1 (by decide) one_ne_zero).1⟩

lemma map_idem_on {α : Type} (f : α → α) (l : List α) (h : ∀ a ∈ l, f (f a) = f a) :
    (l.map f).map f = l.map f := by
  induction l with
  | nil => rfl
  | cons a rest ih =>
    simp only [List.map_cons, List.cons.injEq]
    exact ⟨h a (List.mem_cons_self a rest), ih (fun b hb => h b (List.mem_cons_of_mem a hb))⟩

lemma hasSpeedT_map_rowSpeedHygiene (t : List SegRow) (hs : hasSpeedT t = true) :
    hasSpeedT (t.map (mapSample rowSpeedHygiene)) = true := by
  obtain ⟨r, hr, _⟩ := List.any_eq_true.mp hs
  refine List.any_eq_true.mpr ⟨mapSample rowSpeedHygiene r, List.mem_map_of_mem _ hr, ?_⟩
  rcases hsp : r.sample.speed with _ | v <;> simp [mapSample, rowSpeedHygiene, hsp]

lemma map_congr_mem {α β : Type} (f g : α → β) : ∀ l : List α,
    (∀ a ∈ l, f a = g a) → l.map f = l.map g := by
  intro l
  induction l with
  | nil => intro _; rfl
  | cons a rest ih =>
    intro h
    simp only [List.map_cons, List.cons.injEq]
    exact ⟨h a (List.mem_cons_self a rest), ih (fun b hb => h b (List.mem_cons_of_mem a hb))⟩

lemma map_eq_map_of_mem {α β : Type} (f g : α → β) : ∀ l : List α,
    l.map f = l.map g → ∀ a ∈ l, f a = g a := by
  intro l
  induction l with
  | nil => intro _ a ha; simp at ha
  | cons b rest ih =>
    intro h a ha
    simp only [List.map_cons, List.cons.injEq] at h
    rcases List.mem_cons.mp ha with h2 | h2
    · exact h2 ▸ h.1
    · exact ih h.2 a h2

/-- C9 (amended): the semicircle conversion is keyed on the unit tag — it
leaves any non-semicircle-tagged value unchanged, so reapplying it to an
already-converted (untagged) value is the identity.  The speed conversion
is an unconditional division by 1000: whenever a speed column is present,
running the pass twice divides every speed (nulls first filled to zero) by
10^6 instead of 10^3, and the table-level pass is idempotent precisely
when every speed value is null or zero. -/
theorem C9_normalization_idempotence :
    (∀ (v : ℚ) (u : String), u ≠ "semicircles" → fieldToValue ⟨v, u⟩ = v) ∧
    (∀ (f : TaggedField) (u : String), u ≠ "semicircles" →
      fieldToValue ⟨fieldToValue f, u⟩ = fieldToValue f) ∧
    (∀ t : List SegRow, hasSpeedT t = true →
      (speedNormalize (speedNormalize t)).map (fun r => r.sample.speed) =
        t.map (fun r => some (r.sample.speed.getD 0 / 1000000))) ∧
    (∀ t : List SegRow,
      speedNormalize (speedNormalize t) = speedNormalize t ↔
        ∀ r ∈ t, r.sample.speed = none ∨ r.sample.speed = some 0) := by
  refine ⟨?_, ?_, ?_, ?_⟩
  · intro v u h
    simp [fieldToValue, h]
  · intro f u h
    simp [fieldToValue, h]
  · intro t hs
    have e1 : speedNormalize t = t.map (mapSample rowSpeedHygiene) := by
      simp [speedNormalize, hs]
    rw [e1]
    simp only [speedNormalize, hasSpeedT_map_rowSpeedHygiene t hs, if_true]
    rw [List.map_map, List.map_map]
    refine map_congr_mem _ _ t ?_
    intro r hr
    rcases hsp : r.sample.speed with _ | v
    · simp [Function.comp, mapSample, rowSpeedHygiene, hsp]
    · norm_num [Function.comp, mapSample, rowSpeedHygiene, hsp, div_div]
  · intro t
    constructor
    · intro heq r hr
      by_cases hs : hasSpeedT t = true
      · have e1 : speedNormalize t = t.map (mapSample rowSpeedHygiene) := by
          simp [speedNormalize, hs]
        rw [e1] at heq
        simp only [speedNormalize, hasSpeedT_map_rowSpeedHygiene t hs, if_true] at heq
        rw [List.map_map] at heq
        have hpt := map_eq_map_of_mem _ _ t heq r hr
        rcases hsp : r.sample.speed with _ | v
        · exact Or.inl rfl
        · have hv : v / 1000 / 1000 = v / 1000 := by
            have h2 := congrArg (fun x => x.sample.speed) hpt
            simpa [Function.comp, mapSample, rowSpeedHygiene, hsp] using h2
          have hv0 : v = 0 := by
            field_simp at hv
            linarith
          exact Or.inr (by rw [hv0])
      · rcases hsp : r.sample.speed with _ | v
        · exact Or.inl rfl
        · exact absurd (List.any_eq_true.mpr ⟨r, hr, by simp [hsp]⟩) hs
    · intro ht
      by_cases hs : hasSpeedT t = true
      · have e1 : speedNormalize t = t.map (mapSample rowSpeedHygiene) := by
          simp [speedNormalize, hs]
        rw [e1]
        simp only [speedNormalize, hasSpeedT_map_rowSpeedHygiene t hs, if_true]
        refine map_idem_on (mapSample rowSpeedHygiene) t ?_
        intro r hr
        rcases ht r hr with h | h <;> simp [mapSample, rowSpeedHygiene, h]
      · simp [speedNormalize, hs]

/-- Witness for C9 at concrete inputs: a non-semicircle unit passes
through; running the pass twice on a speed-2000 table divides by 10^6; and
normalization is idempotent on a table whose only speed is zero. -/
theorem C9_normalization_idempotence_witness :
    fieldToValue ⟨7, "m/s"⟩ = 7 ∧
    (speedNormalize (speedNormalize
      [⟨0, 0, ⟨0, some 2000, none, none, none, none, none⟩, false⟩])).map
        (fun r => r.sample.speed) =
      [(⟨0, 0, ⟨0, some 2000, none, none, none, none, none⟩, false⟩ : SegRow)].map
        (fun r => some (r.sample.speed.getD 0 / 1000000)) ∧
    speedNormalize (speedNormalize [⟨0, 0, ⟨0, some 0, none, none, none, none, none⟩, false⟩]) =
      speedNormalize [⟨0, 0, ⟨0, some 0, none, none, none, none, none⟩, false⟩] := by
  refine ⟨C9_normalization_idempotence.1 7 "m/s" (by decide),
    C9_normalization_idempotence.2.2.1 _ (by decide),
    (C9_normalization_idempotence.2.2.2 _).mpr ?_⟩
  intro r hr
  simp at hr
  subst hr
  exact Or.inr rfl

/-- C9 counterexample: a table with speed 2000 mm/s is normalized to 2 m/s
once, but to 1/500 m/s when the pass runs twice — the unit-normalization
step is not idempotent. -/
theorem C9_counterexample :
    speedNormalize (speedNormalize
      [⟨0, 0, ⟨0, some 2000, none, none, none, none, none⟩, false⟩]) ≠
      speedNormalize [⟨0, 0, ⟨0, some 2000, none, none, none, none, none⟩, false⟩] := by
  have e1 : speedNormalize [⟨0, 0, ⟨0, some 2000, none, none, none, none, none⟩, false⟩] =
      [⟨0, 0, ⟨0, some 2, none, none, none, none, none⟩, false⟩] := by
    norm_num [speedNormalize, hasSpeedT, mapSample, rowSpeedHygiene]
  have e2 : speedNormalize [⟨0, 0, ⟨0, some 2, none, none, none, none, none⟩, false⟩] =
      [⟨0, 0, ⟨0, some (1/500 : ℚ), none, none, none, none, none⟩, false⟩] := by
    norm_num [speedNormalize, hasSpeedT, mapSample, rowSpeedHygiene]
  rw [e1, e2]
  intro h
  simp only [List.cons.injEq, SegRow.mk.injEq, Rec.mk.injEq, Option.some.injEq, and_true,
    true_and] at h
  norm_num at h

lemma merged_no_early_detected_stop (θ : ℚ) (r0 : Rec) (rs : List Rec)
    (dev : List (Int × EventRow))
    (h1 : ∀ r ∈ rs, r0.timestamp < r.timestamp)
    (h2 : ∀ p ∈ dev, p.2.timer_trigger ≠ some "detected")
    (h3 : ∀ p ∈ dev, p.1 = r0.timestamp → p.2.timer_trigger = none →
      strStartsWith p.2.event_type "stop" = false) :
    ∀ e ∈ combine_first dev (detect_start_stop_events θ (r0 :: rs)),
      e.1 ≤ r0.timestamp → ¬ isDetectedStop e.2 := by
  intro e he hle
  rcases mem_combine_first _ _ _ he with h | h | h
  · intro hds
    exact h2 e h hds.2
  · simp only [detect_start_stop_events] at h
    rcases List.mem_cons.mp h with h | h
    · rw [h]
      intro hds
      have hsw : strStartsWith "start" "stop" = true := hds.1
      exact absurd hsw (by decide)
    · obtain ⟨_, r, hr, hts⟩ := mem_detectAux θ rs false e h
      have := h1 r hr
      omega
  · obtain ⟨rx, ry, hx, hy, he2⟩ := h
    simp only [detect_start_stop_events] at hy
    rcases List.mem_cons.mp hy with hy2 | hy2
    · have ht0 : e.1 = r0.timestamp := congrArg Prod.fst hy2
      intro hds
      rw [he2] at hds
      rcases htr : rx.timer_trigger with _ | tr
      · have hsw : strStartsWith rx.event_type "stop" = false := h3 (e.1, rx) hx ht0 htr
        have hsw2 : strStartsWith rx.event_type "stop" = true := hds.1
        rw [hsw] at hsw2
        exact absurd hsw2 (by decide)
      · have htrc : (rowCombine rx ry).timer_trigger = rx.timer_trigger := by
          simp [rowCombine, htr]
        refine h2 (e.1, rx) hx ?_
        show rx.timer_trigger = some "detected"
        rw [← htrc]
        exact hds.2
    · obtain ⟨_, r, hr, hts⟩ := mem_detectAux θ rs false (e.1, ry) hy2
      have := h1 r hr
      simp only at hts
      omega

/-- C10 (amended): for a non-empty sample stream with strictly increasing
timestamps and device events that never carry the `detected` trigger, if no
device stop event sits at exactly the first sample's timestamp with a
missing trigger (the cell-wise merge would graft the bootstrap start's
`detected` trigger onto it), then construction succeeds, the excising flag
is false when the first sample is emitted, the table's first row is the
first sample (offset 0, not excised), and every retained row's offset is
its timestamp minus the first sample's timestamp. -/
theorem C10_first_sample_retained (remove debug : Bool) (θ : ℚ) (r0 : Rec) (rs : List Rec)
    (dev : List (Int × EventRow))
    (h1 : ∀ r ∈ rs, r0.timestamp < r.timestamp)
    (h2 : ∀ p ∈ dev, p.2.timer_trigger ≠ some "detected")
    (h3 : ∀ p ∈ dev, p.1 = r0.timestamp → p.2.timer_trigger = none →
      strStartsWith p.2.event_type "stop" = false) :
    ∃ tbl, buildActivity remove debug θ (r0 :: rs) dev = some tbl ∧
      (∃ (h0 : SegRow) (rest2 : List SegRow), tbl = h0 :: rest2 ∧
        h0.sample.timestamp = r0.timestamp ∧ h0.offset = 0 ∧ h0.excise = false) ∧
      (∀ row ∈ tbl, row.offset = row.sample.timestamp - r0.timestamp) := by
  have hkey : ∀ e ∈ (if remove || debug then
      combine_first dev (detect_start_stop_events θ (r0 :: rs)) else dev),
      e.1 ≤ r0.timestamp → ¬ isDetectedStop e.2 := by
    split
    · exact merged_no_early_detected_stop θ r0 rs dev h1 h2 h3
    · intro e he hle hds
      exact h2 e he hds.2
  generalize hE : (if remove || debug then
      combine_first dev (detect_start_stop_events θ (r0 :: rs)) else dev) = E at hkey
  have hbuild : buildActivity remove debug θ (r0 :: rs) dev =
      some (hygiene (segmentRows debug r0.timestamp (r0 :: rs) E ⟨-1, false⟩)) := by
    rw [← hE]
    rfl
  have hex : (drainEvents r0.timestamp E ⟨-1, false⟩).2.excise = false := by
    rw [drainEvents_eq]
    exact foldl_processEvent_excise_false _ _ rfl
      (fun e he => hkey e
        (mem_takeWhile_mem (fun x => decide (x.1 ≤ r0.timestamp)) E e he)
        (of_decide_eq_true (mem_takeWhile_pred (fun x => decide (x.1 ≤ r0.timestamp)) E e he)))
  have hseg : segmentRows debug r0.timestamp (r0 :: rs) E ⟨-1, false⟩ =
      ⟨(drainEvents r0.timestamp E ⟨-1, false⟩).2.curr_block, 0, r0, false⟩ ::
        segmentRows debug r0.timestamp rs (drainEvents r0.timestamp E ⟨-1, false⟩).1
          (drainEvents r0.timestamp E ⟨-1, false⟩).2 := by
    simp only [segmentRows]
    rw [hex]
    simp
  refine ⟨hygiene (segmentRows debug r0.timestamp (r0 :: rs) E ⟨-1, false⟩), hbuild, ?_, ?_⟩
  · have hmeta := hygiene_meta (segmentRows debug r0.timestamp (r0 :: rs) E ⟨-1, false⟩)
    cases hhyg : hygiene (segmentRows debug r0.timestamp (r0 :: rs) E ⟨-1, false⟩) with
    | nil =>
      rw [hhyg, hseg] at hmeta
      simp at hmeta
    | cons h0 rest2 =>
      rw [hhyg, hseg] at hmeta
      simp only [List.map_cons, List.cons.injEq, segMeta, Prod.mk.injEq] at hmeta
      refine ⟨h0, rest2, rfl, ?_, ?_, ?_⟩
      · exact hmeta.1.2.2.2
      · exact hmeta.1.2.1
      · exact hmeta.1.2.2.1
  · intro row hrow
    have hmeta := hygiene_meta (segmentRows debug r0.timestamp (r0 :: rs) E ⟨-1, false⟩)
    have hmem : segMeta row ∈
        (segmentRows debug r0.timestamp (r0 :: rs) E ⟨-1, false⟩).map segMeta :=
      hmeta ▸ List.mem_map_of_mem segMeta hrow
    obtain ⟨row0, hrow0, hmr⟩ := List.mem_map.mp hmem
    have hoff := segmentRows_offset debug r0.timestamp (r0 :: rs) E ⟨-1, false⟩ row0 hrow0
    have h5 := congrArg (fun q => q.2.1) hmr
    have h6 := congrArg (fun q => q.2.2.2) hmr
    simp only [segMeta] at h5 h6
    omega

/-- Witness for C10 at a concrete input: one sample, no device events. -/
theorem C10_first_sample_retained_witness :
    ∃ tbl, buildActivity true false 3 [recNull 0] [] = some tbl ∧
      (∃ (h0 : SegRow) (rest2 : List SegRow), tbl = h0 :: rest2 ∧
        h0.sample.timestamp = (recNull 0).timestamp ∧ h0.offset = 0 ∧ h0.excise = false) ∧
      (∀ row ∈ tbl, row.offset = row.sample.timestamp - (recNull 0).timestamp) :=
  C10_first_sample_retained true false 3 (recNull 0) [] [] (by simp) (by simp) (by simp)

/-- C10 counterexample: a device stop with a missing trigger at exactly the
first sample's timestamp inherits the `detected` trigger from the bootstrap
start in the cell-wise merge, so the first sample is excised and the
canonical table is empty — the first sample is not always retained. -/
theorem C10_counterexample :
    buildActivity true false 3 [recNull 0] [(0, (⟨"stop", none⟩ : EventRow))] = some [] := by
  have hm : combine_first [(0, (⟨"stop", none⟩ : EventRow))]
      (detect_start_stop_events 3 [recNull 0]) = [(0, ⟨"stop", some "detected"⟩)] := by
    simp [detect_start_stop_events, detectAux, recNull, combine_first, rowCombine, startDetected]
  simp only [buildActivity, Bool.or_false, if_true]
  rw [hm]
  decide
